import Mathlib

/-!
Verification of the SonicSV streaming CSV tokenizer (src/sonicsv.h).

This file shallowly embeds the incremental tokenizer of `csv_parse_buffer`
and its helpers (`add_field`, `finish_row`, `append_to_field_buffer`,
`csv_scalar_find_char`) from src/sonicsv.h, and proves or refutes the
specification claims about them.

Modelling conventions:
* Bytes are `Nat` values (the C code compares raw `char` values only for
  equality against configured bytes, so the numeric value is all that
  matters); buffers are `List Nat`.
* Allocation (`ensure_capacity`) is modelled as always succeeding: the
  out-of-memory paths depend on the allocator, not on the parsing logic,
  and `max_memory_kb` defaults to 0 (unlimited).
* The row callback is modelled by collecting the rows passed to it, in
  order, in the result of a call; the error callback is modelled by the
  `errors` counter that `report_error` increments.
* `csv_find_special_char_with_parser` dispatches between SIMD variants and
  `csv_scalar_find_char`, all of which compute the first occurrence of any
  of the four structural bytes; the model uses the scalar definition.
* The C main loop is translated as a non-recursive step function
  (`csv_step`, one iteration of the `while (pos < end)` loop) driven by a
  fueled loop (`runLoopF`); fuel `remaining.length` is always sufficient
  because every iteration consumes at least one byte, which is proved in
  `csv_step_cont_adv` below.
* Floating point statistics (`avg_field_size`, `avg_row_size`) and timing
  are not modelled; the integer counters are.
-/

namespace SonicSV

/-- Error codes (csv_error_t in src/sonicsv.h). -/
inductive CsvError
  | ok
  | invalidArgs
  | outOfMemory
  | parseError
  | fieldTooLarge
  | rowTooLarge
  | ioError
deriving DecidableEq, Repr

/-- Tokenizer states (CSV_STATE_FIELD_START, CSV_STATE_IN_QUOTED_FIELD,
CSV_STATE_QUOTE_IN_QUOTED_FIELD). -/
inductive CsvState
  | fieldStart
  | inQuoted
  | quoteInQuoted
deriving DecidableEq, Repr

/-- The tokenizer-relevant parse options (csv_parse_options_t).  The
performance-only fields (buffer_size, num_threads, prefetch, mmap,
max_memory_kb defaulting to unlimited, ...) do not influence the token
stream and are omitted. -/
structure Options where
  delimiter : Nat
  quoteChar : Nat
  doubleQuote : Bool
  trimWhitespace : Bool
  ignoreEmptyLines : Bool
  strictMode : Bool
  maxFieldSize : Nat
  maxRowSize : Nat
deriving DecidableEq, Repr

/-- csv_default_options: delimiter `,` (44), quote `"` (34), double_quote
on, trim off, ignore_empty_lines on, strict off, max_field 10 MiB,
max_row 100 MiB. -/
def csv_default_options : Options :=
  { delimiter := 44
    quoteChar := 34
    doubleQuote := true
    trimWhitespace := false
    ignoreEmptyLines := true
    strictMode := false
    maxFieldSize := 10485760
    maxRowSize := 104857600 }

/-- A field descriptor as seen by the row callback (csv_field_t): the
field bytes and the quoted flag.  The C descriptor carries a pointer and a
size; the model carries the designated bytes by value. -/
structure Field where
  data : List Nat
  quoted : Bool
deriving DecidableEq, Repr

/-- A row as passed to the row callback (csv_row_t): the field table, the
1-based row number (stats.total_rows_parsed after increment) and the
stream offset of the row's first byte (current_row_start_offset). -/
structure Row where
  fields : List Field
  rowNumber : Nat
  byteOffset : Nat
deriving DecidableEq, Repr

/-- The observable parser state (csv_parser_t): tokenizer state, the field
accumulation buffer (field_buffer up to field_buffer_pos), the carryover
buffer (unparsed_buffer up to unparsed_size), the field table of the
current row, the integer statistics counters, and the current row start
offset. -/
structure Parser where
  state : CsvState
  fieldBuffer : List Nat
  unparsed : List Nat
  fields : List Field
  rowsParsed : Nat
  fieldsParsed : Nat
  errors : Nat
  bytesProcessed : Nat
  rowStartOffset : Nat
deriving DecidableEq, Repr

/-- csv_parser_create: zero-initialised parser in CSV_STATE_FIELD_START. -/
def csv_parser_create : Parser :=
  { state := .fieldStart
    fieldBuffer := []
    unparsed := []
    fields := []
    rowsParsed := 0
    fieldsParsed := 0
    errors := 0
    bytesProcessed := 0
    rowStartOffset := 0 }

/-- report_error: bumps stats.errors_encountered (the error callback is
invoked with the error; the model keeps the counter) and returns the
parser. -/
def report_error (p : Parser) : Parser :=
  { p with errors := p.errors + 1 }

/-- Search result of the scan primitives (csv_search_result_t): `pos` is
the index of the found byte (`none` models the NULL pointer), `offset` the
reported offset. -/
structure SearchResult where
  pos : Option Nat
  offset : Nat
deriving DecidableEq, Repr

/-- csv_scalar_find_char: linear scan for the first occurrence of any of
the four target bytes; returns the index and offset, or NULL with
offset = length when no byte matches. -/
def csv_scalar_find_char : List Nat → Nat → Nat → Nat → Nat → SearchResult
  | [], _, _, _, _ => ⟨none, 0⟩
  | b :: t, c1, c2, c3, c4 =>
    if b = c1 ∨ b = c2 ∨ b = c3 ∨ b = c4 then ⟨some 0, 0⟩
    else
      match csv_scalar_find_char t c1 c2 c3 c4 with
      | ⟨some i, _⟩ => ⟨some (i + 1), i + 1⟩
      | ⟨none, _⟩ => ⟨none, t.length + 1⟩

/-- The quote scan of CSV_STATE_IN_QUOTED_FIELD: the C loop
`while (quote_pos < end && *quote_pos != quote_char) quote_pos++;`
returning the relative offset of the first quote byte, or the length of
the run when there is none. -/
def quote_scan (q : Nat) : List Nat → Nat
  | [] => 0
  | b :: t => if b = q then 0 else quote_scan q t + 1

/-- trim of ASCII space and tab from both ends of an unquoted field
(the trim_whitespace branch of add_field). -/
def trim_ws (d : List Nat) : List Nat :=
  ((d.dropWhile fun b => b == 32 || b == 9).reverse.dropWhile
      fun b => b == 32 || b == 9).reverse

/-- add_field: rejects fields over max_field_size (via report_error),
copies quoted fields into the field data pool (by-value in the model),
optionally trims unquoted fields, appends the descriptor to the field
table and bumps stats.total_fields_parsed. -/
def add_field (o : Options) (p : Parser) (d : List Nat) (q : Bool) :
    Parser × CsvError :=
  if d.length > o.maxFieldSize then (report_error p, .fieldTooLarge)
  else
    let fd := if q then d
      else if o.trimWhitespace && decide (0 < d.length) then trim_ws d
      else d
    ({ p with
        fields := p.fields ++ [⟨fd, q⟩]
        fieldsParsed := p.fieldsParsed + 1 }, .ok)

/-- finish_row: skips when the field table is empty and
ignore_empty_lines is set; rejects rows over max_row_size (via
report_error); otherwise bumps stats.total_rows_parsed, invokes the row
callback (modelled by returning the row) and clears the field table. -/
def finish_row (o : Options) (p : Parser) : Parser × Option Row × CsvError :=
  if p.fields.length = 0 ∧ o.ignoreEmptyLines then (p, none, .ok)
  else
    let total := (p.fields.map fun f => f.data.length).sum
    if total > o.maxRowSize then (report_error p, none, .rowTooLarge)
    else
      (({ p with rowsParsed := p.rowsParsed + 1, fields := [] }),
        some ⟨p.fields, p.rowsParsed + 1, p.rowStartOffset⟩, .ok)

/-- append_to_field_buffer: append bytes to the field accumulation
buffer, rejecting growth past max_field_size (without report_error, as in
the C code). -/
def append_to_field_buffer (o : Options) (p : Parser) (s : List Nat) :
    Parser × CsvError :=
  if p.fieldBuffer.length + s.length > o.maxFieldSize then (p, .fieldTooLarge)
  else ({ p with fieldBuffer := p.fieldBuffer ++ s }, .ok)

/-- How one iteration of the `while (pos < end)` loop of csv_parse_buffer
ends: continue after advancing `adv` bytes, or leave the loop.  `halt`
with `unparsedOut = some (u, n)` is the early `return CSV_OK` that saves
`u` into the carryover buffer with `n` bytes consumed; `halt` with
`unparsedOut = none` is a `break` out of the loop (or reaching its end)
at `finalPos` with error `err`. -/
inductive StepOut
  | cont (adv : Nat) (p : Parser) (emitted : Option Row)
  | halt (p : Parser) (emitted : Option Row) (unparsedOut : Option (List Nat × Nat))
      (finalPos : Nat) (err : CsvError)
deriving Repr

/-- One iteration of the main loop of csv_parse_buffer, at `pos` with the
nonempty remaining input `c :: rest` (so `*pos = c` and `end - pos =
(c :: rest).length`).  `orig` is original_bytes_processed. -/
def csv_step (o : Options) (isFinal : Bool) (orig : Nat) (c : Nat)
    (rest : List Nat) (pos : Nat) (p : Parser) : StepOut :=
  match p.state with
  | .fieldStart =>
    if c ≠ o.quoteChar ∧ c ≠ o.delimiter ∧ c ≠ 10 ∧ c ≠ 13 then
      -- fast path: unquoted field starting at field_start = pos
      match (csv_scalar_find_char (c :: rest) o.delimiter o.quoteChar 10 13).pos with
      | none =>
        if isFinal then
          let ar := add_field o p (c :: rest) false
          if ar.2 = .ok then
            let fr := finish_row o ar.1
            .halt fr.1 fr.2.1 none (pos + (c :: rest).length) fr.2.2
          else .halt ar.1 none none pos ar.2
        else
          .halt p none (some (c :: rest, pos)) pos .ok
      | some k =>
        let ar := add_field o p ((c :: rest).take k) false
        if ar.2 = .ok then
          if (c :: rest).getD k 0 = o.delimiter then
            .cont (k + 1) ar.1 none
          else if (c :: rest).getD k 0 = 10 then
            let fr := finish_row o ar.1
            if fr.2.2 = .ok then
              .cont (k + 1) { fr.1 with rowStartOffset := orig + pos + (k + 1) } fr.2.1
            else .halt fr.1 none none (pos + (k + 1)) fr.2.2
          else if (c :: rest).getD k 0 = 13 then
            let adv := if k + 1 < (c :: rest).length then
              (if (c :: rest).getD (k + 1) 0 = 10 then k + 2 else k + 1) else k + 1
            let fr := finish_row o ar.1
            if fr.2.2 = .ok then
              .cont adv { fr.1 with rowStartOffset := orig + pos + adv } fr.2.1
            else .halt fr.1 none none (pos + adv) fr.2.2
          else if (c :: rest).getD k 0 = o.quoteChar ∧ o.strictMode then
            .halt (report_error ar.1) none none (pos + k) .parseError
          else
            -- non-strict quote (or unreachable): the loop continues at the
            -- found byte, which the next iteration dispatches on
            .cont k ar.1 none
        else .halt ar.1 none none pos ar.2
    else if c = o.quoteChar then
      .cont 1 { p with state := .inQuoted, fieldBuffer := [] } none
    else if c = o.delimiter then
      let ar := add_field o p [] false
      if ar.2 = .ok then .cont 1 ar.1 none
      else .halt ar.1 none none pos ar.2
    else if c = 10 then
      let ar := add_field o p [] false
      if ar.2 = .ok then
        let fr := finish_row o ar.1
        if fr.2.2 = .ok then
          .cont 1 { fr.1 with rowStartOffset := orig + pos + 1 } fr.2.1
        else .halt fr.1 none none pos fr.2.2
      else .halt ar.1 none none pos ar.2
    else
      -- c = CR (13)
      let ar := add_field o p [] false
      if ar.2 = .ok then
        let adv := if 1 < (c :: rest).length then
          (if (c :: rest).getD 1 0 = 10 then 2 else 1) else 1
        let fr := finish_row o ar.1
        if fr.2.2 = .ok then
          .cont adv { fr.1 with rowStartOffset := orig + pos + adv } fr.2.1
        else .halt fr.1 none none (pos + adv) fr.2.2
      else .halt ar.1 none none pos ar.2
  | .inQuoted =>
    let j := quote_scan o.quoteChar (c :: rest)
    let a1 := if 0 < j then append_to_field_buffer o p ((c :: rest).take j) else (p, .ok)
    if a1.2 = .ok then
      if j = (c :: rest).length then
        -- no closing quote in this buffer
        if isFinal then
          if o.strictMode then
            .halt (report_error a1.1) none none pos .parseError
          else
            let ar := add_field o a1.1 a1.1.fieldBuffer true
            if ar.2 = .ok then
              let fr := finish_row o ar.1
              if fr.2.2 = .ok then .halt fr.1 fr.2.1 none (pos + (c :: rest).length) .ok
              else .halt fr.1 fr.2.1 none pos fr.2.2
            else .halt ar.1 none none pos ar.2
        else
          .halt a1.1 none (some (c :: rest, pos)) pos .ok
      else
        if o.doubleQuote = true then
          if j + 1 < (c :: rest).length then
            if (c :: rest).getD (j + 1) 0 = o.quoteChar then
              let a2 := append_to_field_buffer o a1.1 [o.quoteChar]
              if a2.2 = .ok then .cont (j + 2) a2.1 none
              else .halt a2.1 none none (pos + (j + 1)) a2.2
            else .cont (j + 1) { a1.1 with state := .quoteInQuoted } none
          else .cont (j + 1) { a1.1 with state := .quoteInQuoted } none
        else .cont (j + 1) { a1.1 with state := .quoteInQuoted } none
    else .halt a1.1 none none pos a1.2
  | .quoteInQuoted =>
    if c = o.delimiter then
      let ar := add_field o p p.fieldBuffer true
      if ar.2 = .ok then .cont 1 { ar.1 with state := .fieldStart } none
      else .halt ar.1 none none pos ar.2
    else if c = 10 then
      let ar := add_field o p p.fieldBuffer true
      if ar.2 = .ok then
        let fr := finish_row o ar.1
        if fr.2.2 = .ok then
          .cont 1 { fr.1 with state := .fieldStart, rowStartOffset := orig + pos + 1 } fr.2.1
        else .halt fr.1 none none pos fr.2.2
      else .halt ar.1 none none pos ar.2
    else if c = 13 then
      let ar := add_field o p p.fieldBuffer true
      if ar.2 = .ok then
        let adv := if 1 < (c :: rest).length then
          (if (c :: rest).getD 1 0 = 10 then 2 else 1) else 1
        let fr := finish_row o ar.1
        if fr.2.2 = .ok then
          .cont adv { fr.1 with state := .fieldStart, rowStartOffset := orig + pos + adv } fr.2.1
        else .halt fr.1 none none (pos + adv) fr.2.2
      else .halt ar.1 none none pos ar.2
    else if c = 32 ∨ c = 9 then
      .cont 1 p none
    else if o.strictMode then
      .halt (report_error p) none none pos .parseError
    else
      let a1 := append_to_field_buffer o p [o.quoteChar]
      if a1.2 = .ok then
        let a2 := append_to_field_buffer o a1.1 [c]
        if a2.2 = .ok then .cont 1 { a2.1 with state := .inQuoted } none
        else .halt a2.1 none none pos a2.2
      else .halt a1.1 none none pos a1.2

/-- How a whole run of the main loop ends: an early suspension return
(CSV_OK with carryover saved), or falling out of the loop at `finalPos`
with `err`. -/
inductive LoopExit
  | suspendExit (unparsed : List Nat) (consumed : Nat)
  | doneExit (finalPos : Nat) (err : CsvError)
deriving DecidableEq, Repr

/-- The main loop of csv_parse_buffer, driven by `csv_step`, with explicit
fuel.  Every iteration consumes at least one byte (`csv_step_cont_adv`
part of `csv_step_spec`), so fuel `remaining.length` is always enough;
running out of fuel coincides with running out of input and returns the
same value as the empty-input case. -/
def runLoopF (o : Options) (isFinal : Bool) (orig : Nat) :
    Nat → List Nat → Nat → Parser → Parser × List Row × LoopExit
  | 0, _, pos, p => (p, [], .doneExit pos .ok)
  | _ + 1, [], pos, p => (p, [], .doneExit pos .ok)
  | fuel + 1, c :: rest, pos, p =>
    match csv_step o isFinal orig c rest pos p with
    | .halt p1 r? (some (u, n)) _ _ => (p1, r?.toList, .suspendExit u n)
    | .halt p1 r? none fp e => (p1, r?.toList, .doneExit fp e)
    | .cont adv p1 r? =>
      let r := runLoopF o isFinal orig fuel ((c :: rest).drop adv) (pos + adv) p1
      (r.1, r?.toList ++ r.2.1, r.2.2)

/-- The main loop of csv_parse_buffer from position 0 on `buf`. -/
def runLoop (o : Options) (isFinal : Bool) (orig : Nat) (buf : List Nat)
    (p : Parser) : Parser × List Row × LoopExit :=
  runLoopF o isFinal orig buf.length buf 0 p

/-- Result of a csv_parse_buffer call: the new parser state, the rows
passed to the row callback during the call (in order), and the returned
error code. -/
structure ParseResult where
  parser : Parser
  rows : List Row
  err : CsvError
deriving DecidableEq, Repr

/-- csv_parse_buffer (src/sonicsv.h): validates arguments, prepends the
carried-over unparsed bytes to the incoming buffer, runs the main loop,
flushes a pending final row when is_final, updates
stats.total_bytes_processed, and clears the carryover buffer when the
combined buffer was consumed entirely.  The NULL-buffer and
SIZE_MAX-overflow argument checks have no counterpart on lists of
unbounded naturals. -/
def csv_parse_buffer (o : Options) (p : Parser) (input : List Nat)
    (isFinal : Bool) : ParseResult :=
  if o.maxFieldSize = 0 ∨ o.maxRowSize = 0 then ⟨p, [], .invalidArgs⟩
  else
    let buf := p.unparsed ++ input
    let orig := p.bytesProcessed
    let r := runLoop o isFinal orig buf p
    match r.2.2 with
    | .suspendExit u n =>
      ⟨{ r.1 with unparsed := u, bytesProcessed := orig + n }, r.2.1, .ok⟩
    | .doneExit fp err =>
      let unparsedAfter : List Nat :=
        if p.unparsed.isEmpty then [] else if fp = buf.length then [] else buf
      if isFinal then
        if err = .ok then
          if 0 < r.1.fields.length then
            let fr := finish_row o r.1
            ⟨{ fr.1 with unparsed := unparsedAfter, bytesProcessed := orig + fp },
              r.2.1 ++ fr.2.1.toList, fr.2.2⟩
          else
            ⟨{ r.1 with unparsed := unparsedAfter, bytesProcessed := orig + fp },
              r.2.1, err⟩
        else
          ⟨{ r.1 with unparsed := unparsedAfter, bytesProcessed := orig + fp },
            r.2.1, err⟩
      else
        ⟨{ r.1 with unparsed := unparsedAfter, bytesProcessed := orig + fp },
          r.2.1, err⟩

/-- Feeding a sequence of buffers to one parser, is_final on the last
call, stopping at the first non-OK return; the emitted rows are
concatenated in order. -/
def csv_parse_chunks (o : Options) (p : Parser) :
    List (List Nat) → ParseResult
  | [] => ⟨p, [], .ok⟩
  | [last] => csv_parse_buffer o p last true
  | chunk :: c2 :: rest =>
    let r := csv_parse_buffer o p chunk false
    if r.err = .ok then
      let r2 := csv_parse_chunks o r.parser (c2 :: rest)
      ⟨r2.parser, r.rows ++ r2.rows, r2.err⟩
    else r

/-- ASCII bytes of a string literal, for concrete test inputs. -/
def bytes (s : String) : List Nat :=
  s.data.map Char.toNat

/-- The default options with strict_mode switched on. -/
def strict_options : Options :=
  { csv_default_options with strictMode := true }

/-- The default options with ignore_empty_lines switched off. -/
def keep_empty_options : Options :=
  { csv_default_options with ignoreEmptyLines := false }

/-- The field data of every emitted row of a parse result, in order. -/
def rowsData (r : ParseResult) : List (List (List Nat)) :=
  r.rows.map fun row => row.fields.map fun f => f.data

/-- An element of the body of a quoted field, as written in the input: a
doubled-quote escape or a literal non-quote byte. -/
inductive QuotedItem
  | esc
  | lit (b : Nat)
deriving DecidableEq, Repr

/-- The bytes a list of quoted-field items occupies in the input (an
escape is two quote bytes, a literal is itself). -/
def renderItems : List QuotedItem → List Nat
  | [] => []
  | .esc :: r => 34 :: 34 :: renderItems r
  | .lit b :: r => b :: renderItems r

/-- The bytes the parser is specified to deliver for a list of
quoted-field items (an escape is one quote byte, a literal is itself). -/
def unfoldItems : List QuotedItem → List Nat
  | [] => []
  | .esc :: r => 34 :: unfoldItems r
  | .lit b :: r => b :: unfoldItems r

/-- Number of doubled-quote escapes among the items. -/
def escCount (l : List QuotedItem) : Nat :=
  l.countP fun i => i matches .esc

/-- Number of literal bytes among the items. -/
def litCount (l : List QuotedItem) : Nat :=
  l.countP fun i => i matches .lit _

/-- Whether an item is a literal byte. -/
def isLit : QuotedItem → Bool
  | .esc => false
  | .lit _ => true

/-- Parsing one string in a single final call with default options. -/
def parse1 (s : String) : ParseResult :=
  csv_parse_buffer csv_default_options csv_parser_create (bytes s) true

end SonicSV

namespace SonicSV

theorem find_char_pos_lt (d : List Nat) (c1 c2 c3 c4 i : Nat)
    (h : (csv_scalar_find_char d c1 c2 c3 c4).pos = some i) : i < d.length := by
  induction d generalizing i with
  | nil => simp [csv_scalar_find_char] at h
  | cons b t ih =>
    rw [csv_scalar_find_char] at h
    by_cases hb : b = c1 ∨ b = c2 ∨ b = c3 ∨ b = c4
    · rw [if_pos hb] at h
      simp only [SearchResult.mk.injEq, Option.some.injEq] at h
      simp only [List.length_cons]
      omega
    · rw [if_neg hb] at h
      rcases hf : csv_scalar_find_char t c1 c2 c3 c4 with ⟨po, off⟩
      rw [hf] at h
      cases po with
      | none => simp at h
      | some j =>
        simp at h
        have hj := ih j (by rw [hf])
        simp only [List.length_cons]
        omega

theorem find_char_head_ne (b : Nat) (t : List Nat) (c1 c2 c3 c4 k : Nat)
    (hb : ¬(b = c1 ∨ b = c2 ∨ b = c3 ∨ b = c4))
    (h : (csv_scalar_find_char (b :: t) c1 c2 c3 c4).pos = some k) : 1 ≤ k := by
  rw [csv_scalar_find_char, if_neg hb] at h
  rcases hf : csv_scalar_find_char t c1 c2 c3 c4 with ⟨po, off⟩
  rw [hf] at h
  cases po with
  | none => simp at h
  | some j => simp at h; omega

theorem quote_scan_le (q : Nat) (l : List Nat) : quote_scan q l ≤ l.length := by
  induction l with
  | nil => simp [quote_scan]
  | cons b t ih =>
    simp only [quote_scan, List.length_cons]
    split
    · omega
    · omega

theorem quote_scan_of_not_mem (q : Nat) (l : List Nat) (h : q ∉ l) :
    quote_scan q l = l.length := by
  induction l with
  | nil => simp [quote_scan]
  | cons b t ih =>
    simp only [quote_scan, List.length_cons]
    rw [if_neg (by intro hb; exact h (hb ▸ List.mem_cons_self b t))]
    rw [ih (fun hm => h (List.mem_cons_of_mem b hm))]

theorem add_field_ok_fields_ne (o : Options) (p : Parser) (d : List Nat)
    (q : Bool) (h : (add_field o p d q).2 = .ok) :
    (add_field o p d q).1.fields ≠ [] := by
  revert h
  unfold add_field
  split
  · intro h
    simp at h
  · intro _ hx
    have hlen := congrArg List.length hx
    simp at hlen

theorem finish_row_some_fields (o : Options) (p : Parser) (row : Row)
    (h : (finish_row o p).2.1 = some row) : row.fields = p.fields := by
  simp only [finish_row] at h
  split at h
  · simp at h
  · split at h
    · simp at h
    · simp only [Option.some.injEq] at h
      rw [← h]

end SonicSV

namespace SonicSV

set_option maxHeartbeats 2000000 in
/-- Every `cont` outcome of a loop iteration advances by at least one
byte and by at most the remaining length. -/
theorem csv_step_cont_adv (o : Options) (isFinal : Bool) (orig c : Nat)
    (rest : List Nat) (pos : Nat) (p : Parser) (adv : Nat) (p1 : Parser)
    (r? : Option Row)
    (h : csv_step o isFinal orig c rest pos p = .cont adv p1 r?) :
    1 ≤ adv ∧ adv ≤ (c :: rest).length := by
  have hqs := quote_scan_le o.quoteChar (c :: rest)
  have hlen := List.length_cons c rest
  simp only [csv_step] at h
  repeat' split at h
  all_goals simp only [StepOut.cont.injEq, reduceCtorEq] at h
  all_goals obtain ⟨ha, -, -⟩ := h
  all_goals subst ha
  all_goals try have hfind :=
    find_char_pos_lt (c :: rest) o.delimiter o.quoteChar 10 13 _ (by assumption)
  all_goals try have hone :=
    find_char_head_ne c rest o.delimiter o.quoteChar 10 13 _ (by tauto) (by assumption)
  all_goals omega

set_option maxHeartbeats 2000000 in
/-- Every row a `cont` outcome emits has a nonempty field table. -/
theorem csv_step_cont_row (o : Options) (isFinal : Bool) (orig c : Nat)
    (rest : List Nat) (pos : Nat) (p : Parser) (adv : Nat) (p1 : Parser)
    (row : Row)
    (h : csv_step o isFinal orig c rest pos p = .cont adv p1 (some row)) :
    row.fields ≠ [] := by
  simp only [csv_step] at h
  repeat' split at h
  all_goals simp only [StepOut.cont.injEq, reduceCtorEq, and_false, false_and] at h
  all_goals obtain ⟨-, -, hr⟩ := h
  all_goals rw [finish_row_some_fields _ _ _ hr]
  all_goals exact add_field_ok_fields_ne _ _ _ _ (by assumption)

set_option maxHeartbeats 2000000 in
/-- An early suspension saves exactly the bytes from the current position
on, happens only on non-final calls, returns CSV_OK and emits no row. -/
theorem csv_step_suspend (o : Options) (isFinal : Bool) (orig c : Nat)
    (rest : List Nat) (pos : Nat) (p : Parser) (p1 : Parser) (r? : Option Row)
    (u : List Nat) (n fp : Nat) (e : CsvError)
    (h : csv_step o isFinal orig c rest pos p = .halt p1 r? (some (u, n)) fp e) :
    u = c :: rest ∧ n = pos ∧ isFinal = false ∧ e = .ok ∧ r? = none := by
  cases isFinal with
  | false =>
    simp only [csv_step] at h
    repeat' split at h
    all_goals simp only [StepOut.halt.injEq, StepOut.cont.injEq, reduceCtorEq,
      Option.some.injEq, Prod.mk.injEq, false_and, and_false] at h
    all_goals obtain ⟨-, hr, ⟨hu, hn⟩, -, he⟩ := h
    all_goals exact ⟨hu.symm, hn.symm, rfl, he.symm, hr.symm⟩
  | true =>
    simp only [csv_step] at h
    repeat' split at h
    all_goals simp only [StepOut.halt.injEq, StepOut.cont.injEq, reduceCtorEq,
      Option.some.injEq, Prod.mk.injEq, false_and, and_false] at h
    all_goals obtain ⟨-, -, -, -, -⟩ := h
    all_goals exact absurd trivial (by assumption)

set_option maxHeartbeats 2000000 in
/-- When an iteration breaks out of the loop with CSV_OK (no suspension),
the final position is the end of the buffer. -/
theorem csv_step_halt_fp (o : Options) (isFinal : Bool) (orig c : Nat)
    (rest : List Nat) (pos : Nat) (p : Parser) (p1 : Parser) (r? : Option Row)
    (fp : Nat)
    (h : csv_step o isFinal orig c rest pos p = .halt p1 r? none fp .ok) :
    fp = pos + (c :: rest).length := by
  simp only [csv_step] at h
  repeat' split at h
  all_goals first
    | (rw [StepOut.halt.injEq] at h
       obtain ⟨-, -, -, hfp, he⟩ := h
       first
         | exact absurd he (by assumption)
         | exact hfp.symm)
    | exact absurd h (by simp)

set_option maxHeartbeats 2000000 in
/-- Every row a loop-breaking iteration emits has a nonempty field
table. -/
theorem csv_step_halt_row (o : Options) (isFinal : Bool) (orig c : Nat)
    (rest : List Nat) (pos : Nat) (p : Parser) (p1 : Parser) (row : Row)
    (uo : Option (List Nat × Nat)) (fp : Nat) (e : CsvError)
    (h : csv_step o isFinal orig c rest pos p = .halt p1 (some row) uo fp e) :
    row.fields ≠ [] := by
  simp only [csv_step] at h
  repeat' split at h
  all_goals first
    | (rw [StepOut.halt.injEq] at h
       obtain ⟨-, hr, -, -, -⟩ := h
       rw [finish_row_some_fields _ _ _ hr]
       exact add_field_ok_fields_ne _ _ _ _ (by assumption))
    | exact absurd h (by simp)

end SonicSV

namespace SonicSV

/-- If the main loop falls out with CSV_OK and no suspension, it
consumed the whole remaining input. -/
theorem runLoopF_done_ok (o : Options) (isFinal : Bool) (orig : Nat)
    (fuel : Nat) (remaining : List Nat) (pos : Nat) (p : Parser) (fp : Nat)
    (hfuel : remaining.length ≤ fuel)
    (h : (runLoopF o isFinal orig fuel remaining pos p).2.2 = .doneExit fp .ok) :
    fp = pos + remaining.length := by
  induction fuel generalizing remaining pos p fp with
  | zero =>
    have hr : remaining.length = 0 := Nat.le_zero.mp hfuel
    simp only [runLoopF, LoopExit.doneExit.injEq] at h
    omega
  | succ fuel ih =>
    cases remaining with
    | nil =>
      simp only [runLoopF, LoopExit.doneExit.injEq] at h
      simp only [List.length_nil]
      omega
    | cons c rest =>
      simp only [runLoopF] at h
      cases hs : csv_step o isFinal orig c rest pos p with
      | halt p1 r? uo fp' e =>
        rw [hs] at h
        cases uo with
        | some un =>
          rcases un with ⟨u, n⟩
          simp at h
        | none =>
          simp only [LoopExit.doneExit.injEq] at h
          obtain ⟨hfp, he⟩ := h
          subst he
          have hfp2 := csv_step_halt_fp o isFinal orig c rest pos p p1 r? fp' hs
          omega
      | cont adv p1 r? =>
        rw [hs] at h
        dsimp only at h
        have hadv := csv_step_cont_adv o isFinal orig c rest pos p adv p1 r? hs
        have hdrop := List.length_drop adv (c :: rest)
        have hlen := List.length_cons c rest
        have hrec := ih ((c :: rest).drop adv) (pos + adv) p1 fp (by omega) h
        omega

/-- If the main loop returns early with a suspension, the consumed count
plus the saved carryover account for the whole remaining input, and the
call was not final. -/
theorem runLoopF_suspend (o : Options) (isFinal : Bool) (orig : Nat)
    (fuel : Nat) (remaining : List Nat) (pos : Nat) (p : Parser)
    (u : List Nat) (n : Nat)
    (h : (runLoopF o isFinal orig fuel remaining pos p).2.2 = .suspendExit u n) :
    n + u.length = pos + remaining.length ∧ isFinal = false := by
  induction fuel generalizing remaining pos p with
  | zero => simp [runLoopF] at h
  | succ fuel ih =>
    cases remaining with
    | nil => simp [runLoopF] at h
    | cons c rest =>
      simp only [runLoopF] at h
      cases hs : csv_step o isFinal orig c rest pos p with
      | halt p1 r? uo fp' e =>
        rw [hs] at h
        cases uo with
        | some un =>
          rcases un with ⟨u', n'⟩
          simp only [LoopExit.suspendExit.injEq] at h
          obtain ⟨hu, hn⟩ := h
          obtain ⟨hu2, hn2, hfin, -, -⟩ :=
            csv_step_suspend o isFinal orig c rest pos p p1 r? u' n' fp' e hs
          subst hu hn
          constructor
          · rw [hu2, hn2]
          · exact hfin
        | none => simp at h
      | cont adv p1 r? =>
        rw [hs] at h
        dsimp only at h
        have hadv := csv_step_cont_adv o isFinal orig c rest pos p adv p1 r? hs
        have hdrop := List.length_drop adv (c :: rest)
        have hlen := List.length_cons c rest
        obtain ⟨hsum, hfin⟩ := ih ((c :: rest).drop adv) (pos + adv) p1 h
        exact ⟨by omega, hfin⟩

/-- Every row the main loop emits has a nonempty field table. -/
theorem runLoopF_row (o : Options) (isFinal : Bool) (orig : Nat)
    (fuel : Nat) (remaining : List Nat) (pos : Nat) (p : Parser) (row : Row)
    (h : row ∈ (runLoopF o isFinal orig fuel remaining pos p).2.1) :
    row.fields ≠ [] := by
  induction fuel generalizing remaining pos p with
  | zero => simp [runLoopF] at h
  | succ fuel ih =>
    cases remaining with
    | nil => simp [runLoopF] at h
    | cons c rest =>
      simp only [runLoopF] at h
      cases hs : csv_step o isFinal orig c rest pos p with
      | halt p1 r? uo fp' e =>
        rw [hs] at h
        cases uo with
        | some un =>
          rcases un with ⟨u', n'⟩
          dsimp only at h
          cases r? with
          | none => simp at h
          | some row2 =>
            obtain ⟨-, -, -, -, hr⟩ :=
              csv_step_suspend o isFinal orig c rest pos p p1 _ u' n' fp' e hs
            simp at hr
        | none =>
          dsimp only at h
          cases r? with
          | none => simp at h
          | some row2 =>
            simp only [Option.toList_some, List.mem_singleton] at h
            subst h
            exact csv_step_halt_row o isFinal orig c rest pos p p1 row none fp' e hs
      | cont adv p1 r? =>
        rw [hs] at h
        dsimp only at h
        rw [List.mem_append] at h
        cases h with
        | inl hl =>
          cases r? with
          | none => simp at hl
          | some row2 =>
            simp only [Option.toList_some, List.mem_singleton] at hl
            subst hl
            exact csv_step_cont_row o isFinal orig c rest pos p adv p1 row hs
        | inr hr => exact ih ((c :: rest).drop adv) (pos + adv) p1 hr

end SonicSV

namespace SonicSV

theorem runLoop_suspend (o : Options) (isFinal : Bool) (orig : Nat)
    (buf : List Nat) (p : Parser) (u : List Nat) (n : Nat)
    (h : (runLoop o isFinal orig buf p).2.2 = .suspendExit u n) :
    n + u.length = buf.length ∧ isFinal = false := by
  have hs := runLoopF_suspend o isFinal orig buf.length buf 0 p u n h
  simpa using hs

theorem runLoop_done_ok (o : Options) (isFinal : Bool) (orig : Nat)
    (buf : List Nat) (p : Parser) (fp : Nat) (err : CsvError)
    (h : (runLoop o isFinal orig buf p).2.2 = .doneExit fp err)
    (he : err = .ok) : fp = buf.length := by
  subst he
  have hs := runLoopF_done_ok o isFinal orig buf.length buf 0 p fp (le_refl _) h
  omega

theorem runLoop_row (o : Options) (isFinal : Bool) (orig : Nat)
    (buf : List Nat) (p : Parser) (row : Row)
    (h : row ∈ (runLoop o isFinal orig buf p).2.1) : row.fields ≠ [] :=
  runLoopF_row o isFinal orig buf.length buf 0 p row h

set_option maxHeartbeats 1000000 in
/-- A csv_parse_buffer call that returns CSV_OK accounts for every byte:
the new total_bytes_processed plus the new carryover length equal the old
ones plus the input length, and a final OK call leaves no carryover. -/
theorem csv_parse_buffer_ok_spec (o : Options) (p : Parser) (input : List Nat)
    (isFinal : Bool) (res : ParseResult)
    (hres : csv_parse_buffer o p input isFinal = res) (h : res.err = .ok) :
    res.parser.bytesProcessed + res.parser.unparsed.length
      = p.bytesProcessed + p.unparsed.length + input.length ∧
    res.parser.unparsed.length ≤ p.unparsed.length + input.length ∧
    (isFinal = true → res.parser.unparsed = []) := by
  have hla : (p.unparsed ++ input).length = p.unparsed.length + input.length :=
    List.length_append _ _
  simp only [csv_parse_buffer] at hres
  repeat' split at hres
  all_goals subst hres
  all_goals dsimp only at h ⊢
  · exact absurd h (by simp)
  all_goals first
    | (obtain ⟨hsum, hfin⟩ := runLoop_suspend o isFinal p.bytesProcessed
          (p.unparsed ++ input) p _ _ (by assumption)
       subst hfin
       exact ⟨by omega, by omega, fun hf => nomatch hf⟩)
    | (have hfp := runLoop_done_ok o isFinal p.bytesProcessed
          (p.unparsed ++ input) p _ _ (by assumption) (by assumption)
       refine ⟨by simp only [List.length_nil]; omega,
         by simp only [List.length_nil]; omega, fun _ => rfl⟩)
    | (have hfp := runLoop_done_ok o isFinal p.bytesProcessed
          (p.unparsed ++ input) p _ _ (by assumption) (by assumption)
       exact ⟨by omega, by omega, fun _ => by exfalso; omega⟩)

set_option maxHeartbeats 1000000 in
/-- Every row a csv_parse_buffer call passes to the row callback has a
nonempty field table. -/
theorem csv_parse_buffer_row (o : Options) (p : Parser) (input : List Nat)
    (isFinal : Bool) (res : ParseResult)
    (hres : csv_parse_buffer o p input isFinal = res) (row : Row)
    (h : row ∈ res.rows) : row.fields ≠ [] := by
  simp only [csv_parse_buffer] at hres
  repeat' split at hres
  all_goals subst hres
  all_goals dsimp only at h
  · nomatch h
  all_goals first
    | (exact runLoop_row o isFinal p.bytesProcessed (p.unparsed ++ input) p row h)
    | (rw [List.mem_append] at h
       cases h with
       | inl hl =>
         exact runLoop_row o isFinal p.bytesProcessed (p.unparsed ++ input) p row hl
       | inr hr =>
         rcases hfr : (finish_row o (runLoop o isFinal p.bytesProcessed
             (p.unparsed ++ input) p).1).2.1 with - | row2
         · rw [hfr] at hr; nomatch hr
         · rw [hfr] at hr
           simp only [Option.toList_some, List.mem_singleton] at hr
           subst hr
           rw [finish_row_some_fields _ _ _ hfr]
           exact List.ne_nil_of_length_pos (by assumption))

end SonicSV

namespace SonicSV

/-- Byte accounting across a chunk sequence: while every call returns
CSV_OK, total_bytes_processed plus the carryover length equal the bytes
fed so far, and the final call leaves no carryover. -/
theorem csv_parse_chunks_ok_bytes (o : Options) (chunks : List (List Nat))
    (p : Parser) (res : ParseResult)
    (hres : csv_parse_chunks o p chunks = res) (h : res.err = .ok) :
    (chunks ≠ [] → res.parser.unparsed = []) ∧
    res.parser.bytesProcessed + res.parser.unparsed.length
      = p.bytesProcessed + p.unparsed.length + (chunks.map List.length).sum := by
  induction chunks generalizing p res with
  | nil =>
    simp only [csv_parse_chunks] at hres
    subst hres
    exact ⟨fun hne => absurd rfl hne, by simp⟩
  | cons chunk rest ih =>
    cases rest with
    | nil =>
      simp only [csv_parse_chunks] at hres
      obtain ⟨hsum, -, hfin⟩ := csv_parse_buffer_ok_spec o p chunk true res hres h
      refine ⟨fun _ => hfin rfl, ?_⟩
      simp only [List.map_cons, List.map_nil, List.sum_cons, List.sum_nil]
      omega
    | cons c2 rest2 =>
      simp only [csv_parse_chunks] at hres
      split at hres
      · subst hres
        dsimp only at h
        obtain ⟨hsum1, -, -⟩ := csv_parse_buffer_ok_spec o p chunk false
          (csv_parse_buffer o p chunk false) rfl (by assumption)
        obtain ⟨hne2, hsum2⟩ := ih (csv_parse_buffer o p chunk false).parser
          (csv_parse_chunks o (csv_parse_buffer o p chunk false).parser (c2 :: rest2))
          rfl h
        refine ⟨fun _ => hne2 (by simp), ?_⟩
        dsimp only
        simp only [List.map_cons, List.sum_cons] at hsum2 ⊢
        omega
      · subst hres
        exact absurd h (by assumption)

/-- Every row emitted during a chunk sequence has a nonempty field
table. -/
theorem csv_parse_chunks_row (o : Options) (chunks : List (List Nat))
    (p : Parser) (row : Row)
    (h : row ∈ (csv_parse_chunks o p chunks).rows) : row.fields ≠ [] := by
  induction chunks generalizing p with
  | nil => simp [csv_parse_chunks] at h
  | cons chunk rest ih =>
    cases rest with
    | nil =>
      exact csv_parse_buffer_row o p chunk true _ rfl row h
    | cons c2 rest2 =>
      simp only [csv_parse_chunks] at h
      split at h
      · dsimp only at h
        rw [List.mem_append] at h
        cases h with
        | inl hl => exact csv_parse_buffer_row o p chunk false _ rfl row hl
        | inr hr => exact ih (csv_parse_buffer o p chunk false).parser hr
      · exact csv_parse_buffer_row o p chunk false _ rfl row h

end SonicSV

namespace SonicSV

/-- C9: csv_scalar_find_char returns the smallest index i < s whose byte
equals one of the four targets, with pos designating d + i and offset = i;
when no byte matches it returns pos NULL and offset = s, including the
case s = 0. -/
theorem C9_scalar_find_char (d : List Nat) (c1 c2 c3 c4 : Nat) :
    (∀ i, (csv_scalar_find_char d c1 c2 c3 c4).pos = some i →
      (csv_scalar_find_char d c1 c2 c3 c4).offset = i ∧ i < d.length ∧
      (d.getD i 0 = c1 ∨ d.getD i 0 = c2 ∨ d.getD i 0 = c3 ∨ d.getD i 0 = c4) ∧
      ∀ j, j < i →
        ¬(d.getD j 0 = c1 ∨ d.getD j 0 = c2 ∨ d.getD j 0 = c3 ∨ d.getD j 0 = c4)) ∧
    ((csv_scalar_find_char d c1 c2 c3 c4).pos = none →
      (csv_scalar_find_char d c1 c2 c3 c4).offset = d.length ∧
      ∀ j, j < d.length →
        ¬(d.getD j 0 = c1 ∨ d.getD j 0 = c2 ∨ d.getD j 0 = c3 ∨ d.getD j 0 = c4)) := by
  induction d with
  | nil =>
    constructor
    · intro i hi
      simp [csv_scalar_find_char] at hi
    · intro _
      exact ⟨rfl, fun j hj => absurd hj (by simp)⟩
  | cons b t ih =>
    by_cases hb : b = c1 ∨ b = c2 ∨ b = c3 ∨ b = c4
    · constructor
      · intro i hi
        rw [csv_scalar_find_char, if_pos hb] at hi
        simp only [Option.some.injEq] at hi
        subst hi
        rw [csv_scalar_find_char, if_pos hb]
        exact ⟨rfl, by simp, by simpa using hb, fun j hj => absurd hj (by omega)⟩
      · intro hnone
        rw [csv_scalar_find_char, if_pos hb] at hnone
        simp at hnone
    · rcases hf : csv_scalar_find_char t c1 c2 c3 c4 with ⟨po, off⟩
      constructor
      · intro i hi
        rw [csv_scalar_find_char, if_neg hb, hf] at hi
        cases po with
        | none => simp at hi
        | some j =>
          simp only [Option.some.injEq] at hi
          subst hi
          obtain ⟨hoff, hjlt, hmatch, hmin⟩ := ih.1 j (by rw [hf])
          rw [csv_scalar_find_char, if_neg hb, hf]
          refine ⟨rfl, by simp only [List.length_cons]; omega,
            by simpa [List.getD_cons_succ] using hmatch, ?_⟩
          intro j2 hj2
          cases j2 with
          | zero => simpa [List.getD_cons_zero] using hb
          | succ j3 =>
            rw [List.getD_cons_succ]
            exact hmin j3 (by omega)
      · intro hnone
        rw [csv_scalar_find_char, if_neg hb, hf] at hnone
        cases po with
        | some j => simp at hnone
        | none =>
          obtain ⟨hoff, hmin⟩ := ih.2 (by rw [hf])
          rw [csv_scalar_find_char, if_neg hb, hf]
          have hofft : off = t.length := by
            have := ih.2 (by rw [hf])
            rw [hf] at this
            simpa using this.1
          refine ⟨by simp, ?_⟩
          intro j hj
          cases j with
          | zero => simpa [List.getD_cons_zero] using hb
          | succ j2 =>
            rw [List.getD_cons_succ]
            exact hmin j2 (by simpa [List.length_cons] using hj)

theorem C9_scalar_find_char_witness :
    (csv_scalar_find_char [97, 44, 10] 44 34 10 13).offset = 1 ∧
    1 < ([97, 44, 10] : List Nat).length := by
  have h := (C9_scalar_find_char [97, 44, 10] 44 34 10 13).1 1 (by decide)
  exact ⟨h.1, h.2.1⟩

/-- C7: for any chunk sequence whose calls all return CSV_OK (the last
one with is_final = true), the final stats.total_bytes_processed equals
the total number of bytes fed. -/
theorem C7_byte_accounting (o : Options) (chunks : List (List Nat))
    (h : (csv_parse_chunks o csv_parser_create chunks).err = .ok) :
    (csv_parse_chunks o csv_parser_create chunks).parser.bytesProcessed
      = (chunks.map List.length).sum := by
  obtain ⟨hne, hsum⟩ := csv_parse_chunks_ok_bytes o chunks csv_parser_create _ rfl h
  cases chunks with
  | nil =>
    simp only [csv_parse_chunks, List.map_nil, List.sum_nil]
    rfl
  | cons c rest =>
    rw [hne (by simp)] at hsum
    simpa [csv_parser_create] using hsum

theorem C7_byte_accounting_witness :
    (csv_parse_chunks csv_default_options csv_parser_create
      [[97, 44], [98, 10]]).parser.bytesProcessed = 4 := by
  have h := C7_byte_accounting csv_default_options [[97, 44], [98, 10]] (by decide)
  simpa using h

/-- C10: the row callback is never invoked with num_fields = 0 — every
emitted row has at least one field, from any parser state and under any
options and chunking. -/
theorem C10_row_callback_nonempty :
    (∀ (o : Options) (p : Parser) (input : List Nat) (isFinal : Bool) (row : Row),
      row ∈ (csv_parse_buffer o p input isFinal).rows → 1 ≤ row.fields.length)
  ∧ (∀ (o : Options) (chunks : List (List Nat)) (row : Row),
      row ∈ (csv_parse_chunks o csv_parser_create chunks).rows →
        1 ≤ row.fields.length) := by
  constructor
  · intro o p input isFinal row h
    have hne := csv_parse_buffer_row o p input isFinal _ rfl row h
    exact Nat.one_le_iff_ne_zero.mpr fun h0 => hne (List.length_eq_zero.mp h0)
  · intro o chunks row h
    have hne := csv_parse_chunks_row o chunks csv_parser_create row h
    exact Nat.one_le_iff_ne_zero.mpr fun h0 => hne (List.length_eq_zero.mp h0)

theorem C10_row_callback_nonempty_witness :
    1 ≤ (Row.mk [⟨[97], false⟩] 1 0).fields.length :=
  C10_row_callback_nonempty.1 csv_default_options csv_parser_create [97, 10] true
    (Row.mk [⟨[97], false⟩] 1 0) (by decide)

/-- C1 (code bug): chunk-split invariance fails on the code.  Parsing
`"hello",world\n` in one call emits the row [hello, world], but feeding
`"hel` then `lo",world\n` emits [helhello, world]: the suspension inside
a quoted field both appends the partial content to the field accumulator
and saves the same bytes to the carryover, which are appended again on
resumption.  Splitting a CRLF pair (`ab\r` + `\ncd\n`) emits an extra
empty-field row because the CR is finished immediately and the leading LF
of the next chunk starts a new empty row.  The claim's own example
`"hel` + `lo"` emits no row at all. -/
theorem C1_chunk_split_code_bug :
    rowsData (csv_parse_buffer csv_default_options csv_parser_create
        (bytes "\"hello\",world\n") true) = [[bytes "hello", bytes "world"]]
  ∧ rowsData (csv_parse_chunks csv_default_options csv_parser_create
        [bytes "\"hel", bytes "lo\",world\n"]) = [[bytes "helhello", bytes "world"]]
  ∧ rowsData (parse1 "ab\r\ncd\n") = [[bytes "ab"], [bytes "cd"]]
  ∧ rowsData (csv_parse_chunks csv_default_options csv_parser_create
        [bytes "ab\r", bytes "\ncd\n"]) = [[bytes "ab"], [[]], [bytes "cd"]]
  ∧ rowsData (csv_parse_chunks csv_default_options csv_parser_create
        [bytes "\"hel", bytes "lo\""]) = [] := by decide

/-- C2 (code bug): with the default ignore_empty_lines = true, parsing a
single line terminator still invokes the row callback once with one
zero-length field — identical to ignore_empty_lines = false — because
every row-terminating path adds a field before finish_row, so the
empty-line skip guard (num_fields == 0) never fires. -/
theorem C2_empty_line_code_bug :
    csv_default_options.ignoreEmptyLines = true
  ∧ (csv_parse_buffer csv_default_options csv_parser_create [10] true).rows
      = [⟨[⟨[], false⟩], 1, 0⟩]
  ∧ (csv_parse_buffer csv_default_options csv_parser_create [10] true).err = .ok
  ∧ (csv_parse_buffer keep_empty_options csv_parser_create [10] true).rows
      = [⟨[⟨[], false⟩], 1, 0⟩] := by decide

/-- C3 counterexample: parsing `a,b,` in one final call does not emit a
three-field row. -/
theorem C3_counterexample :
    ¬(((parse1 "a,b,").rows.map fun r => r.fields.length) = [3]) := by decide

/-- C3 (amended): a trailing delimiter yields an extra zero-length field
only when a line terminator follows it: `a,b,\n` gives one row of three
fields with a zero-length last field, while `a,b,` at end of input gives
one row of two fields (the final flush does not add an empty field after
a trailing delimiter). -/
theorem C3_amended_trailing_delimiter :
    rowsData (parse1 "a,b,") = [[bytes "a", bytes "b"]]
  ∧ (parse1 "a,b,").err = .ok
  ∧ rowsData (parse1 "a,b,\n") = [[bytes "a", bytes "b", []]]
  ∧ ((parse1 "a,b,\n").rows.map fun r => r.fields.length) = [3] := by decide

/-- C4 counterexample: with strict_mode off, parsing `ab"cd,x` does not
treat the stray quote as field data — the fields are not ab"cd and x. -/
theorem C4_counterexample :
    ¬(rowsData (parse1 "ab\"cd,x") = [[bytes "ab\"cd", bytes "x"]]) := by decide

/-- C4 (amended): with strict_mode off, a quote met while scanning an
unquoted field terminates that field at the quote (the bytes before it
are emitted as an unquoted field) and a quoted field begins at the quote:
`ab"cd,x` yields one row [ab, cd,x] with the second field quoted.  With
strict_mode on, the same input produces CSV_ERROR_PARSE_ERROR and no
row. -/
theorem C4_amended_stray_quote :
    rowsData (parse1 "ab\"cd,x") = [[bytes "ab", bytes "cd,x"]]
  ∧ ((parse1 "ab\"cd,x").rows.map fun r => r.fields.map fun f => f.quoted)
      = [[false, true]]
  ∧ (parse1 "ab\"cd,x").err = .ok
  ∧ (csv_parse_buffer strict_options csv_parser_create (bytes "ab\"cd,x") true).err
      = .parseError
  ∧ (csv_parse_buffer strict_options csv_parser_create (bytes "ab\"cd,x") true).rows
      = [] := by decide

/-- C8 (code bug): a zero-size non-final call is not a no-op in every
state.  After suspending inside a quoted field (input `"ab`, not final),
the carryover holds `ab` and the field accumulator already holds `ab`; a
subsequent size-0 non-final call re-scans the carryover and appends it to
the field accumulator again (`abab`), which is observable in the field
value of the eventually emitted row. -/
theorem C8_zero_size_call_code_bug :
    ((csv_parse_buffer csv_default_options
        (csv_parse_buffer csv_default_options csv_parser_create (bytes "\"ab") false).parser
        [] false).err = .ok)
  ∧ (csv_parse_buffer csv_default_options csv_parser_create
        (bytes "\"ab") false).parser.fieldBuffer = bytes "ab"
  ∧ (csv_parse_buffer csv_default_options
        (csv_parse_buffer csv_default_options csv_parser_create (bytes "\"ab") false).parser
        [] false).parser.fieldBuffer = bytes "abab"
  ∧ rowsData (csv_parse_buffer csv_default_options
        (csv_parse_buffer csv_default_options csv_parser_create (bytes "\"ab") false).parser
        (bytes "\"\n") true) = [[bytes "abab"]]
  ∧ rowsData (csv_parse_buffer csv_default_options
        (csv_parse_buffer csv_default_options
          (csv_parse_buffer csv_default_options csv_parser_create (bytes "\"ab") false).parser
          [] false).parser
        (bytes "\"\n") true) = [[bytes "ababab"]] := by decide

end SonicSV

namespace SonicSV

/-- End of input inside an open quoted field, in one step: when the
remaining final input holds no quote byte and the limits are not hit, the
strict iteration reports a parse error without emitting a row, and the
non-strict iteration closes the field with the accumulated content plus
the remaining bytes and emits the row. -/
theorem csv_step_inQuoted_final (o : Options) (orig c : Nat)
    (rest : List Nat) (pos : Nat) (p : Parser)
    (hstate : p.state = .inQuoted)
    (hq : o.quoteChar ∉ c :: rest)
    (hsize : p.fieldBuffer.length + (c :: rest).length ≤ o.maxFieldSize)
    (hrow : p.fieldBuffer.length + (c :: rest).length ≤ o.maxRowSize)
    (hfields : p.fields = []) :
    (o.strictMode = true →
      csv_step o true orig c rest pos p =
        .halt (report_error { p with fieldBuffer := p.fieldBuffer ++ (c :: rest) })
          none none pos .parseError) ∧
    (o.strictMode = false →
      csv_step o true orig c rest pos p =
        .halt { p with
            fieldBuffer := p.fieldBuffer ++ (c :: rest)
            fields := []
            fieldsParsed := p.fieldsParsed + 1
            rowsParsed := p.rowsParsed + 1 }
          (some ⟨[⟨p.fieldBuffer ++ (c :: rest), true⟩],
            p.rowsParsed + 1, p.rowStartOffset⟩) none (pos + (c :: rest).length) .ok) := by
  have hscan := quote_scan_of_not_mem o.quoteChar (c :: rest) hq
  have hlen : (c :: rest).length = rest.length + 1 := List.length_cons c rest
  have hnfField : ¬ o.maxFieldSize < p.fieldBuffer.length + (rest.length + 1) := by
    omega
  have hnfRow : ¬ o.maxRowSize < p.fieldBuffer.length + (rest.length + 1) := by
    omega
  constructor
  · intro hs
    simp [csv_step, hstate, hscan, append_to_field_buffer, hnfField, hs]
  · intro hs
    simp [csv_step, hstate, hscan, append_to_field_buffer, add_field, finish_row,
      hnfField, hnfRow, hs, hfields]

end SonicSV

namespace SonicSV

/-- A single final call on an opening quote followed by quote-free
content: strict mode returns a parse error and emits nothing; non-strict
mode closes the field with the content and emits the one-field row. -/
theorem csv_parse_buffer_unclosed_quote (o : Options) (b : Nat) (t : List Nat)
    (h0 : ¬(o.maxFieldSize = 0 ∨ o.maxRowSize = 0))
    (hq : o.quoteChar ∉ b :: t)
    (hsize : (b :: t).length ≤ o.maxFieldSize)
    (hrow : (b :: t).length ≤ o.maxRowSize) :
    (o.strictMode = true →
      (csv_parse_buffer o csv_parser_create (o.quoteChar :: b :: t) true).err
          = .parseError
      ∧ (csv_parse_buffer o csv_parser_create (o.quoteChar :: b :: t) true).rows = [])
  ∧ (o.strictMode = false →
      (csv_parse_buffer o csv_parser_create (o.quoteChar :: b :: t) true).err = .ok
      ∧ (csv_parse_buffer o csv_parser_create (o.quoteChar :: b :: t) true).rows
          = [⟨[⟨b :: t, true⟩], 1, 0⟩]) := by
  have hstep1 : csv_step o true 0 o.quoteChar (b :: t) 0
        ⟨.fieldStart, [], [], [], 0, 0, 0, 0, 0⟩
      = .cont 1 ⟨.inQuoted, [], [], [], 0, 0, 0, 0, 0⟩ none := by
    simp [csv_step]
  have hstep2 := csv_step_inQuoted_final o 0 b t 1
    ⟨.inQuoted, [], [], [], 0, 0, 0, 0, 0⟩ rfl hq (by simpa using hsize)
    (by simpa using hrow) rfl
  constructor
  · intro hs
    have h2 := hstep2.1 hs
    have hloop : runLoop o true 0 (o.quoteChar :: b :: t)
          ⟨.fieldStart, [], [], [], 0, 0, 0, 0, 0⟩
        = (report_error ⟨.inQuoted, [] ++ b :: t, [], [], 0, 0, 0, 0, 0⟩, [],
            .doneExit 1 .parseError) := by
      simp only [runLoop, List.length_cons, runLoopF, hstep1]
      simp only [List.drop_succ_cons, List.drop_zero, runLoopF, h2]
      rfl
    constructor <;>
      simp [csv_parse_buffer, h0, csv_parser_create, hloop]
  · intro hs
    have h2 := hstep2.2 hs
    have hloop : runLoop o true 0 (o.quoteChar :: b :: t)
          ⟨.fieldStart, [], [], [], 0, 0, 0, 0, 0⟩
        = (⟨.inQuoted, [] ++ b :: t, [], [], 1, 1, 0, 0, 0⟩,
            [⟨[⟨[] ++ b :: t, true⟩], 1, 0⟩],
            .doneExit (1 + (b :: t).length) .ok) := by
      simp only [runLoop, List.length_cons, runLoopF, hstep1]
      simp only [List.drop_succ_cons, List.drop_zero, runLoopF, h2]
      rfl
    constructor <;>
      simp [csv_parse_buffer, h0, csv_parser_create, hloop]

/-- C5 counterexample: when the final buffer ends exactly at the opening
quote, the tokenizer is left inside an unclosed quoted field but strict
mode returns CSV_OK, not a parse error; with input `x,"` strict mode even
emits the row [x].  Non-strict mode emits no row for the open quoted
field either. -/
theorem C5_counterexample :
    (csv_parse_buffer strict_options csv_parser_create [34] true).err = .ok
  ∧ (csv_parse_buffer strict_options csv_parser_create [34] true).parser.state
      = .inQuoted
  ∧ (csv_parse_buffer strict_options csv_parser_create [34] true).rows = []
  ∧ (csv_parse_buffer strict_options csv_parser_create (bytes "x,\"") true).err = .ok
  ∧ rowsData (csv_parse_buffer strict_options csv_parser_create (bytes "x,\"") true)
      = [[bytes "x"]]
  ∧ (csv_parse_buffer csv_default_options csv_parser_create [34] true).rows = []
    := by decide

/-- C5 (amended): when csv_parse_buffer is called with is_final = true
and ends inside an unclosed quoted field that has at least one content
byte in the final buffer, then with strict_mode off the field is closed
with the accumulated content, the row is emitted and the call returns
CSV_OK, while with strict_mode on no row is emitted and the call returns
CSV_ERROR_PARSE_ERROR; when the opening quote is the last byte of input,
both modes return CSV_OK with no row for the pending field. -/
theorem C5_amended_eof_in_quoted (content : List Nat)
    (hne : content ≠ []) (hq : (34 : Nat) ∉ content)
    (hlen : content.length ≤ 10485760) :
    ((csv_parse_buffer csv_default_options csv_parser_create
        (34 :: content) true).err = .ok
   ∧ (csv_parse_buffer csv_default_options csv_parser_create
        (34 :: content) true).rows = [⟨[⟨content, true⟩], 1, 0⟩])
  ∧ ((csv_parse_buffer strict_options csv_parser_create
        (34 :: content) true).err = .parseError
   ∧ (csv_parse_buffer strict_options csv_parser_create
        (34 :: content) true).rows = []) := by
  obtain ⟨b, t, rfl⟩ : ∃ b t, content = b :: t := by
    cases content with
    | nil => exact absurd rfl hne
    | cons b t => exact ⟨b, t, rfl⟩
  have hlen2 : (b :: t).length ≤ 10485760 := hlen
  constructor
  · exact (csv_parse_buffer_unclosed_quote csv_default_options b t
      (by decide) hq hlen2
      (by simp only [csv_default_options]; omega)).2 rfl
  · exact (csv_parse_buffer_unclosed_quote strict_options b t
      (by decide) hq hlen2
      (by simp only [strict_options, csv_default_options]; omega)).1 rfl

theorem C5_amended_eof_in_quoted_witness :
    (csv_parse_buffer csv_default_options csv_parser_create
        (bytes "\"unterminated") true).rows
      = [⟨[⟨bytes "unterminated", true⟩], 1, 0⟩]
  ∧ (csv_parse_buffer strict_options csv_parser_create
        (bytes "\"unterminated") true).err = .parseError := by
  have h := C5_amended_eof_in_quoted (bytes "unterminated") (by decide)
    (by decide) (by decide)
  exact ⟨h.1.2, h.2.1⟩

end SonicSV

namespace SonicSV

theorem runLoopF_nil (o : Options) (isFinal : Bool) (orig fuel pos : Nat)
    (p : Parser) :
    runLoopF o isFinal orig fuel [] pos p = (p, [], .doneExit pos .ok) := by
  cases fuel <;> simp [runLoopF]

theorem quote_scan_append (q : Nat) (xs ys : List Nat) (hxs : q ∉ xs) :
    quote_scan q (xs ++ q :: ys) = xs.length := by
  induction xs with
  | nil => simp [quote_scan]
  | cons a t ih =>
    simp only [List.mem_cons, not_or] at hxs
    simp only [List.cons_append, quote_scan, List.length_cons]
    rw [if_neg fun ha => hxs.1 ha.symm]
    show quote_scan q (t ++ q :: ys) + 1 = t.length + 1
    rw [ih hxs.2]

theorem take_append_length (xs zs : List Nat) :
    (xs ++ zs).take xs.length = xs := by
  induction xs with
  | nil => simp
  | cons a t ih => simp [ih]

theorem getD_append_two (xs ys : List Nat) (a b : Nat) :
    (xs ++ a :: b :: ys).getD (xs.length + 1) 0 = b := by
  induction xs with
  | nil => simp
  | cons x t ih => simpa using ih

theorem drop_append_one (xs ys : List Nat) (a : Nat) :
    (xs ++ a :: ys).drop (xs.length + 1) = ys := by
  induction xs with
  | nil => simp
  | cons x t ih => simp [ih]

theorem drop_append_two (xs ys : List Nat) (a b : Nat) :
    (xs ++ a :: b :: ys).drop (xs.length + 2) = ys := by
  induction xs with
  | nil => simp
  | cons x t ih => simp [ih]

theorem renderItems_append (a b : List QuotedItem) :
    renderItems (a ++ b) = renderItems a ++ renderItems b := by
  induction a with
  | nil => simp [renderItems]
  | cons x t ih => cases x <;> simp [renderItems, ih]

theorem unfoldItems_append (a b : List QuotedItem) :
    unfoldItems (a ++ b) = unfoldItems a ++ unfoldItems b := by
  induction a with
  | nil => simp [unfoldItems]
  | cons x t ih => cases x <;> simp [unfoldItems, ih]

theorem unfoldItems_length (l : List QuotedItem) :
    (unfoldItems l).length = l.length := by
  induction l with
  | nil => simp [unfoldItems]
  | cons x t ih => cases x <;> simp [unfoldItems, ih]

theorem renderItems_all_lit (l : List QuotedItem) (h : ∀ x ∈ l, isLit x = true) :
    renderItems l = unfoldItems l := by
  induction l with
  | nil => rfl
  | cons x t ih =>
    cases x with
    | esc => exact absurd (h _ (List.mem_cons_self _ _)) (by simp [isLit])
    | lit b =>
      simp only [renderItems, unfoldItems]
      rw [ih fun x hx => h x (List.mem_cons_of_mem _ hx)]

theorem not_mem_unfold_all_lit (l : List QuotedItem)
    (hall : ∀ x ∈ l, isLit x = true)
    (hlit : ∀ b, QuotedItem.lit b ∈ l → b ≠ 34) :
    (34 : Nat) ∉ unfoldItems l := by
  induction l with
  | nil => simp [unfoldItems]
  | cons x t ih =>
    cases x with
    | esc => exact absurd (hall _ (List.mem_cons_self _ _)) (by simp [isLit])
    | lit b =>
      simp only [unfoldItems, List.mem_cons]
      rintro (h34 | hm)
      · exact hlit b (List.mem_cons_self _ _) h34.symm
      · exact ih (fun x hx => hall x (List.mem_cons_of_mem _ hx))
          (fun b2 hb2 => hlit b2 (List.mem_cons_of_mem _ hb2)) hm

theorem dropWhile_head_not_lit (l : List QuotedItem) (x : QuotedItem)
    (xs : List QuotedItem) (h : l.dropWhile isLit = x :: xs) :
    isLit x = false := by
  induction l with
  | nil => simp [List.dropWhile] at h
  | cons a t ih =>
    rw [List.dropWhile_cons] at h
    split at h
    · exact ih h
    · rename_i hn
      cases hx : isLit a with
      | false => cases h; exact hx
      | true => exact absurd (by simp [hx]) hn

end SonicSV

namespace SonicSV

/-- Opening quote at field start: enter the quoted state and reset the
field accumulator. -/
theorem csv_step_open_quote (o : Options) (isFinal : Bool) (orig pos : Nat)
    (rest : List Nat) (p : Parser) (hstate : p.state = .fieldStart) :
    csv_step o isFinal orig o.quoteChar rest pos p
      = .cont 1 { p with state := .inQuoted, fieldBuffer := [] } none := by
  simp [csv_step, hstate]

/-- Quoted-field iteration at the closing quote (default options): the
literal run before the quote is appended and the state moves past the
quote into the after-closing-quote state. -/
theorem csv_step_quoted_close (orig c : Nat) (rest xs ys : List Nat) (y : Nat)
    (pos : Nat) (p : Parser)
    (hc : c :: rest = xs ++ 34 :: y :: ys)
    (hstate : p.state = .inQuoted)
    (hxs : (34 : Nat) ∉ xs) (hy : y ≠ 34)
    (hsize : p.fieldBuffer.length + xs.length ≤ 10485760) :
    csv_step csv_default_options true orig c rest pos p
      = .cont (xs.length + 1)
          { p with fieldBuffer := p.fieldBuffer ++ xs, state := .quoteInQuoted }
          none := by
  have hscan : quote_scan 34 (c :: rest) = xs.length := by
    rw [hc]
    exact quote_scan_append 34 xs (y :: ys) hxs
  have hlen : (c :: rest).length = xs.length + 2 + ys.length := by
    rw [hc]
    simp [List.length_append]
    omega
  have happ : (if 0 < xs.length then
        append_to_field_buffer csv_default_options p ((c :: rest).take xs.length)
      else (p, CsvError.ok))
      = ({ p with fieldBuffer := p.fieldBuffer ++ xs }, CsvError.ok) := by
    cases xs with
    | nil =>
      rw [if_neg (by simp)]
      simp
    | cons x txs =>
      rw [if_pos (by simp)]
      rw [hc, take_append_length]
      simp only [append_to_field_buffer, csv_default_options]
      rw [if_neg (by
        simp only [List.length_cons] at hsize ⊢
        omega)]
  have hgetd : (c :: rest).getD (xs.length + 1) 0 = y := by
    rw [hc]
    exact getD_append_two xs ys 34 y
  have hrl : rest.length + 1 = xs.length + 2 + ys.length := by
    have := List.length_cons c rest
    omega
  have hne : ¬ xs.length = rest.length + 1 := by omega
  have hlt : xs.length + 1 < rest.length + 1 := by omega
  have hlt2 : xs.length < rest.length := by omega
  have hq : csv_default_options.quoteChar = 34 := rfl
  have hdq : csv_default_options.doubleQuote = true := rfl
  simp [csv_step, hstate, hscan, happ, hgetd, hne, hy, hlt, hlt2, hq, hdq]
  intro hbad
  exfalso
  have h1 : rest[xs.length]? = some y := by
    have h0 : (c :: rest)[xs.length + 1]? = some y := by
      rw [hc, List.getElem?_append_right (by omega)]
      simp
    simpa using h0
  have h3 := List.getElem?_eq_getElem hlt2
  rw [h1] at h3
  exact hy ((Option.some_inj.mp h3.symm).symm.trans hbad)

/-- Quoted-field iteration at a doubled quote (default options): the
literal run and one literal quote byte are appended and the state stays
in the quoted field past both quote bytes. -/
theorem csv_step_quoted_escape (orig c : Nat) (rest xs ys : List Nat)
    (pos : Nat) (p : Parser)
    (hc : c :: rest = xs ++ 34 :: 34 :: ys)
    (hstate : p.state = .inQuoted)
    (hxs : (34 : Nat) ∉ xs)
    (hsize : p.fieldBuffer.length + xs.length + 1 ≤ 10485760) :
    csv_step csv_default_options true orig c rest pos p
      = .cont (xs.length + 2)
          { p with fieldBuffer := p.fieldBuffer ++ xs ++ [34] }
          none := by
  have hscan : quote_scan 34 (c :: rest) = xs.length := by
    rw [hc]
    exact quote_scan_append 34 xs (34 :: ys) hxs
  have hlen : (c :: rest).length = xs.length + 2 + ys.length := by
    rw [hc]
    simp [List.length_append]
    omega
  have happ : (if 0 < xs.length then
        append_to_field_buffer csv_default_options p ((c :: rest).take xs.length)
      else (p, CsvError.ok))
      = ({ p with fieldBuffer := p.fieldBuffer ++ xs }, CsvError.ok) := by
    cases xs with
    | nil =>
      rw [if_neg (by simp)]
      simp
    | cons x txs =>
      rw [if_pos (by simp)]
      rw [hc, take_append_length]
      simp only [append_to_field_buffer, csv_default_options]
      rw [if_neg (by
        simp only [List.length_cons] at hsize ⊢
        omega)]
  have hgetd : (c :: rest).getD (xs.length + 1) 0 = 34 := by
    rw [hc]
    exact getD_append_two xs ys 34 34
  have happ2 : append_to_field_buffer csv_default_options
      { p with state := CsvState.inQuoted
               fieldBuffer := p.fieldBuffer ++ xs } [34]
      = ({ p with state := CsvState.inQuoted
                  fieldBuffer := p.fieldBuffer ++ xs ++ [34] }, CsvError.ok) := by
    simp only [append_to_field_buffer, csv_default_options]
    rw [if_neg (by
      simp only [List.length_append, List.length_cons, List.length_nil]
      omega)]
  have hrl : rest.length + 1 = xs.length + 2 + ys.length := by
    have := List.length_cons c rest
    omega
  have hne : ¬ xs.length = rest.length + 1 := by omega
  have hlt : xs.length + 1 < rest.length + 1 := by omega
  have hlt2 : xs.length < rest.length := by omega
  have hq : csv_default_options.quoteChar = 34 := rfl
  have hdq : csv_default_options.doubleQuote = true := rfl
  have h1 : rest[xs.length]? = some 34 := by
    have h0 : (c :: rest)[xs.length + 1]? = some (34 : Nat) := by
      rw [hc, List.getElem?_append_right (by omega)]
      simp
    simpa using h0
  have hg : rest[xs.length] = 34 := by
    have h3 := List.getElem?_eq_getElem hlt2
    rw [h1] at h3
    exact Option.some_inj.mp h3.symm
  simp [csv_step, hstate, hscan, happ, hg, happ2, hne, hlt, hlt2, hq, hdq]

/-- After-closing-quote iteration at a line terminator (default
options): the accumulated quoted field is added and the first row is
emitted. -/
theorem csv_step_quoted_LF (orig pos : Nat) (p : Parser)
    (hstate : p.state = .quoteInQuoted) (hfields : p.fields = [])
    (hrows : p.rowsParsed = 0) (hoff : p.rowStartOffset = 0)
    (hsize : p.fieldBuffer.length ≤ 10485760) :
    csv_step csv_default_options true orig 10 [] pos p
      = .cont 1
          { p with state := .fieldStart
                   fields := []
                   fieldsParsed := p.fieldsParsed + 1
                   rowsParsed := 1
                   rowStartOffset := orig + pos + 1 }
          (some ⟨[⟨p.fieldBuffer, true⟩], 1, 0⟩) := by
  have hnf : ¬ 10485760 < p.fieldBuffer.length := by omega
  have hnr : ¬ 104857600 < p.fieldBuffer.length := by omega
  simp [csv_step, hstate, add_field, finish_row, csv_default_options, hfields,
    hrows, hoff, hnf, hnr]

end SonicSV

namespace SonicSV

/-- Unfolding one continuing iteration of the main loop. -/
theorem runLoopF_cont (o : Options) (isFinal : Bool) (orig fuel : Nat)
    (c : Nat) (rest : List Nat) (pos : Nat) (p p1 : Parser) (adv : Nat)
    (r? : Option Row)
    (hstep : csv_step o isFinal orig c rest pos p = .cont adv p1 r?) :
    runLoopF o isFinal orig (fuel + 1) (c :: rest) pos p
      = ((runLoopF o isFinal orig fuel ((c :: rest).drop adv) (pos + adv) p1).1,
         r?.toList
           ++ (runLoopF o isFinal orig fuel ((c :: rest).drop adv) (pos + adv) p1).2.1,
         (runLoopF o isFinal orig fuel ((c :: rest).drop adv) (pos + adv) p1).2.2) := by
  simp [runLoopF, hstep]

/-- Running the loop from inside a quoted field whose remaining input is
a quote-free literal run, the closing quote and a line terminator: the
run is appended to the accumulator, the quoted field is closed and the
single row is emitted. -/
theorem runLoopF_quoted_close_tail (orig pos fuel : Nat) (xs : List Nat)
    (p : Parser)
    (hstate : p.state = .inQuoted) (hfields : p.fields = [])
    (hrows : p.rowsParsed = 0) (hoff : p.rowStartOffset = 0)
    (hxs : (34 : Nat) ∉ xs)
    (hsize : p.fieldBuffer.length + xs.length ≤ 10485760)
    (hfuel : xs.length + 2 ≤ fuel) :
    runLoopF csv_default_options true orig fuel (xs ++ [34, 10]) pos p
      = ({ p with state := .fieldStart
                  fieldBuffer := p.fieldBuffer ++ xs
                  fields := []
                  fieldsParsed := p.fieldsParsed + 1
                  rowsParsed := 1
                  rowStartOffset := orig + (pos + (xs.length + 1)) + 1 },
         [⟨[⟨p.fieldBuffer ++ xs, true⟩], 1, 0⟩],
         .doneExit (pos + (xs.length + 1) + 1) .ok) := by
  obtain ⟨c, rest, hcr⟩ : ∃ c rest, xs ++ [34, 10] = c :: rest := by
    cases xs with
    | nil => exact ⟨34, [10], rfl⟩
    | cons a t => exact ⟨a, t ++ [34, 10], by simp⟩
  obtain ⟨f1, rfl⟩ : ∃ f1, fuel = f1 + 1 + 1 := ⟨fuel - 2, by omega⟩
  have hstep1 := csv_step_quoted_close orig c rest xs [] 10 pos p hcr.symm
    hstate hxs (by decide) hsize
  rw [hcr, runLoopF_cont _ _ _ _ _ _ _ _ _ _ _ hstep1]
  have hdrop : (c :: rest).drop (xs.length + 1) = [10] := by
    rw [← hcr]
    exact drop_append_one xs [10] 34
  rw [hdrop]
  have hstep2 := csv_step_quoted_LF orig (pos + (xs.length + 1))
    { p with fieldBuffer := p.fieldBuffer ++ xs, state := .quoteInQuoted }
    rfl hfields hrows hoff (by simp; omega)
  rw [runLoopF_cont _ _ _ _ _ _ _ _ _ _ _ hstep2]
  simp [runLoopF_nil]

end SonicSV

namespace SonicSV

/-- Running the loop from inside a quoted field whose remaining input is
the rendering of a list of quoted-field items followed by the closing
quote and a line terminator: every doubled-quote escape is delivered as
one literal quote byte, every literal byte as itself, and the single row
holding the unfolded field is emitted. -/
theorem runLoopF_quoted_items (n : Nat) :
    ∀ (items : List QuotedItem) (orig pos fuel : Nat) (p : Parser),
    items.length ≤ n →
    p.state = .inQuoted → p.fields = [] → p.rowsParsed = 0 →
    p.rowStartOffset = 0 →
    (∀ b, QuotedItem.lit b ∈ items → b ≠ 34) →
    p.fieldBuffer.length + items.length ≤ 10485760 →
    (renderItems items).length + 2 ≤ fuel →
    runLoopF csv_default_options true orig fuel
        (renderItems items ++ [34, 10]) pos p
      = ({ p with state := .fieldStart
                  fieldBuffer := p.fieldBuffer ++ unfoldItems items
                  fields := []
                  fieldsParsed := p.fieldsParsed + 1
                  rowsParsed := 1
                  rowStartOffset := orig + (pos + ((renderItems items).length + 1)) + 1 },
         [⟨[⟨p.fieldBuffer ++ unfoldItems items, true⟩], 1, 0⟩],
         .doneExit (pos + ((renderItems items).length + 1) + 1) .ok) := by
  induction n with
  | zero =>
    intro items orig pos fuel p hn hstate hfields hrows hoff hlit hsize hfuel
    have hnil : items = [] := List.length_eq_zero.mp (Nat.le_zero.mp hn)
    subst hnil
    have h := runLoopF_quoted_close_tail orig pos fuel [] p hstate hfields
      hrows hoff (by simp) (by simpa using hsize) (by simpa using hfuel)
    simpa [renderItems, unfoldItems] using h
  | succ n ih =>
    intro items orig pos fuel p hn hstate hfields hrows hoff hlit hsize hfuel
    cases hR : items.dropWhile isLit with
    | nil =>
      have hall : ∀ x ∈ items, isLit x = true := by
        have h := List.takeWhile_append_dropWhile (p := isLit) (l := items)
        rw [hR, List.append_nil] at h
        intro x hx
        exact List.mem_takeWhile_imp (h ▸ hx)
      have hren : renderItems items = unfoldItems items :=
        renderItems_all_lit items hall
      have hnm : (34 : Nat) ∉ unfoldItems items :=
        not_mem_unfold_all_lit items hall hlit
      have hul : (unfoldItems items).length = items.length :=
        unfoldItems_length items
      have h := runLoopF_quoted_close_tail orig pos fuel (unfoldItems items) p
        hstate hfields hrows hoff hnm (by omega)
        (by rw [hren] at hfuel; omega)
      rw [hren, h]
    | cons e R =>
      have he : isLit e = false := dropWhile_head_not_lit items e R hR
      cases e with
      | lit b => simp [isLit] at he
      | esc =>
        have hitems : items = items.takeWhile isLit ++ .esc :: R := by
          conv_lhs => rw [← List.takeWhile_append_dropWhile (p := isLit) (l := items)]
          rw [hR]
        have hallL : ∀ x ∈ items.takeWhile isLit, isLit x = true :=
          fun x hx => List.mem_takeWhile_imp hx
        have hlitL : ∀ b, QuotedItem.lit b ∈ items.takeWhile isLit → b ≠ 34 :=
          fun b hb => hlit b (by rw [hitems]; exact List.mem_append_left _ hb)
        have hrenL : renderItems (items.takeWhile isLit)
            = unfoldItems (items.takeWhile isLit) :=
          renderItems_all_lit _ hallL
        have hnmL : (34 : Nat) ∉ unfoldItems (items.takeWhile isLit) :=
          not_mem_unfold_all_lit _ hallL hlitL
        have hulL : (unfoldItems (items.takeWhile isLit)).length
            = (items.takeWhile isLit).length := unfoldItems_length _
        have hlenitems : items.length = (items.takeWhile isLit).length + 1 + R.length := by
          conv_lhs => rw [hitems]
          simp [List.length_append]
          omega
        have hinput : renderItems items ++ [34, 10]
            = unfoldItems (items.takeWhile isLit)
              ++ 34 :: 34 :: (renderItems R ++ [34, 10]) := by
          conv_lhs => rw [hitems, renderItems_append, hrenL]
          simp [renderItems]
        have hrenlen : (renderItems items).length
            = (unfoldItems (items.takeWhile isLit)).length + 2
              + (renderItems R).length := by
          conv_lhs => rw [hitems, renderItems_append, hrenL]
          simp [renderItems, List.length_append]
          omega
        obtain ⟨c, rest, hcr⟩ : ∃ c rest,
            unfoldItems (items.takeWhile isLit)
              ++ 34 :: 34 :: (renderItems R ++ [34, 10]) = c :: rest := by
          cases unfoldItems (items.takeWhile isLit) with
          | nil => exact ⟨34, 34 :: (renderItems R ++ [34, 10]), by simp⟩
          | cons a t => exact ⟨a, t ++ 34 :: 34 :: (renderItems R ++ [34, 10]), by simp⟩
        obtain ⟨f, rfl⟩ : ∃ f, fuel = f + 1 := ⟨fuel - 1, by omega⟩
        have hstep := csv_step_quoted_escape orig c rest
          (unfoldItems (items.takeWhile isLit)) (renderItems R ++ [34, 10])
          pos p hcr.symm hstate hnmL (by omega)
        rw [hinput, hcr, runLoopF_cont _ _ _ _ _ _ _ _ _ _ _ hstep]
        have hdrop : (c :: rest).drop
            ((unfoldItems (items.takeWhile isLit)).length + 2)
            = renderItems R ++ [34, 10] := by
          rw [← hcr]
          exact drop_append_two _ _ 34 34
        rw [hdrop]
        have hlitR : ∀ b, QuotedItem.lit b ∈ R → b ≠ 34 := by
          intro b hb
          refine hlit b ?_
          rw [hitems]
          exact List.mem_append_right _ (List.mem_cons_of_mem _ hb)
        have hihR := ih R orig
          (pos + ((unfoldItems (items.takeWhile isLit)).length + 2)) f
          { p with fieldBuffer := p.fieldBuffer
              ++ unfoldItems (items.takeWhile isLit) ++ [34] }
          (by omega) hstate hfields hrows hoff hlitR
          (by simp [List.length_append]; omega)
          (by omega)
        rw [hihR]
        have hunfold : unfoldItems items
            = unfoldItems (items.takeWhile isLit) ++ 34 :: unfoldItems R := by
          conv_lhs => rw [hitems, unfoldItems_append]
          simp [unfoldItems]
        have hluR : (unfoldItems R).length = R.length := unfoldItems_length R
        have hlrR : (renderItems R).length + 2 ≤ (renderItems items).length := by
          omega
        simp [hunfold, hrenlen]
        omega

end SonicSV

namespace SonicSV

/-- Each quoted-field item is delivered as exactly one byte, so the
emitted length is the number of escapes plus the number of literals. -/
theorem unfoldItems_length_counts (l : List QuotedItem) :
    (unfoldItems l).length = escCount l + litCount l := by
  induction l with
  | nil => rfl
  | cons x t ih =>
    cases x <;>
      simp [unfoldItems, escCount, litCount, List.countP_cons, ih] <;> omega

/-- C6 (amended), full-call form: a single final csv_parse_buffer call
on a quoted field written as an arbitrary sequence of doubled-quote
escapes and quote-free literal bytes, closed and followed by a line
terminator, emits exactly one row with one quoted field whose bytes are
the items unfolded (each escape one literal quote byte), of length
(number of escapes) + (number of literals). -/
theorem C6_amended_doubled_quote (items : List QuotedItem)
    (hlit : ∀ b, QuotedItem.lit b ∈ items → b ≠ 34)
    (hsize : items.length ≤ 10485759) :
    (csv_parse_buffer csv_default_options csv_parser_create
        (34 :: (renderItems items ++ [34, 10])) true).err = .ok
  ∧ (csv_parse_buffer csv_default_options csv_parser_create
        (34 :: (renderItems items ++ [34, 10])) true).rows
      = [⟨[⟨unfoldItems items, true⟩], 1, 0⟩]
  ∧ (unfoldItems items).length = escCount items + litCount items := by
  have hstep1 : csv_step csv_default_options true 0 34
        (renderItems items ++ [34, 10]) 0
        ⟨.fieldStart, [], [], [], 0, 0, 0, 0, 0⟩
      = .cont 1 ⟨.inQuoted, [], [], [], 0, 0, 0, 0, 0⟩ none := by
    simp [csv_step, csv_default_options]
  have hloop1 := runLoopF_quoted_items items.length items 0 1
    ((renderItems items ++ [34, 10]).length)
    ⟨.inQuoted, [], [], [], 0, 0, 0, 0, 0⟩ le_rfl rfl rfl rfl rfl hlit
    (by simp only [List.length_nil]; omega)
    (by simp [List.length_append])
  have hloop : runLoop csv_default_options true 0
        (34 :: (renderItems items ++ [34, 10]))
        ⟨.fieldStart, [], [], [], 0, 0, 0, 0, 0⟩
      = ({ state := .fieldStart
           fieldBuffer := [] ++ unfoldItems items
           unparsed := []
           fields := []
           rowsParsed := 1
           fieldsParsed := 0 + 1
           errors := 0
           bytesProcessed := 0
           rowStartOffset := 0 + (1 + ((renderItems items).length + 1)) + 1 },
         [⟨[⟨[] ++ unfoldItems items, true⟩], 1, 0⟩],
         .doneExit (1 + ((renderItems items).length + 1) + 1) .ok) := by
    simp only [runLoop, List.length_cons, runLoopF, hstep1]
    simp only [List.drop_succ_cons, List.drop_zero, Nat.zero_add]
    rw [hloop1]
    simp
  have hne0 : ¬(csv_default_options.maxFieldSize = 0
      ∨ csv_default_options.maxRowSize = 0) := by
    simp [csv_default_options]
  refine ⟨?_, ?_, unfoldItems_length_counts items⟩ <;>
    simp [csv_parse_buffer, csv_parser_create, hloop, hne0]

end SonicSV

namespace SonicSV

/-- C6 counterexample: the claim's unfolding is only delivered when a
line terminator follows the closing quote.  On the claim's own example
input, the bare quoted field `"a""b"` with is_final = true, the call
returns CSV_OK but emits no row at all (the pending field after the
closing quote is dropped by the end-of-input flush), instead of the
claimed single field a"b; with a line terminator appended the claimed
field does appear. -/
theorem C6_counterexample :
    (parse1 "\"a\"\"b\"").err = .ok
  ∧ (parse1 "\"a\"\"b\"").rows = []
  ∧ rowsData (parse1 "\"a\"\"b\"\n") = [[bytes "a\"b"]] := by decide

/-- Witness: the amended doubled-quote theorem applied to the item list
of the example `"a""b"` followed by a line terminator (one literal a,
one doubled-quote escape, one literal b), whose rendering is the byte
string of that example. -/
theorem C6_amended_doubled_quote_witness :
    34 :: (renderItems [QuotedItem.lit 97, QuotedItem.esc, QuotedItem.lit 98]
        ++ [34, 10]) = bytes "\"a\"\"b\"\n"
  ∧ ((csv_parse_buffer csv_default_options csv_parser_create
        (34 :: (renderItems [QuotedItem.lit 97, QuotedItem.esc, QuotedItem.lit 98]
          ++ [34, 10])) true).err = .ok
    ∧ (csv_parse_buffer csv_default_options csv_parser_create
        (34 :: (renderItems [QuotedItem.lit 97, QuotedItem.esc, QuotedItem.lit 98]
          ++ [34, 10])) true).rows
        = [⟨[⟨unfoldItems [QuotedItem.lit 97, QuotedItem.esc, QuotedItem.lit 98],
              true⟩], 1, 0⟩]
    ∧ (unfoldItems [QuotedItem.lit 97, QuotedItem.esc, QuotedItem.lit 98]).length
        = escCount [QuotedItem.lit 97, QuotedItem.esc, QuotedItem.lit 98]
          + litCount [QuotedItem.lit 97, QuotedItem.esc, QuotedItem.lit 98]) :=
  ⟨by decide,
   C6_amended_doubled_quote [QuotedItem.lit 97, QuotedItem.esc, QuotedItem.lit 98]
    (by
      intro b hb
      simp only [List.mem_cons, List.not_mem_nil, or_false] at hb
      rcases hb with h | h | h
      · cases h; decide
      · exact QuotedItem.noConfusion h
      · cases h; decide)
    (by decide)⟩

end SonicSV
